import Mathlib

/-!
Verification development for the connection-pool / topology-scanner /
client-metadata core of a MongoDB C driver.

Modelling conventions:
* C strings are modelled as `List Char`, one `Char` per byte (all string
  content relevant to the claims is ASCII).  `strlen` is `List.length`,
  `bson_strndup s n` is `List.take n` and string concatenation is `++`.
* BSON documents are modelled as ordered lists of key/value elements
  together with a byte-size function that follows the BSON wire format:
  a document is a 4-byte length prefix, its elements and a trailing NUL
  byte; a utf8 element is a tag byte, the NUL-terminated key, a 4-byte
  length prefix and the NUL-terminated string; an int32 element is a tag
  byte, the NUL-terminated key and 4 value bytes.
* `BSON_ASSERT` in libbson is compiled unconditionally and aborts the
  process when its condition is false.  Aborting control flow is made
  explicit: functions that can trip an assertion return a result type
  with an assertion-failure constructor carrying the state at the abort.
* Machine integers: document lengths are C `uint32_t`; the one place the
  source can wrap (the `max_platform_str_size` subtraction) is modelled
  with an explicit `% 2^32` on integers.
-/

/-- Byte strings: one `Char` per byte. -/
abbrev CStr := List Char

/-- Byte-string literal helper (ASCII contents only). -/
def cstr (s : String) : CStr := s.data

/-- BSON values occurring in the modelled documents.  Sub-documents of the
metadata document (`driver`, `os`) only ever hold utf8 fields, so the
sub-document constructor is specialised to utf8 pairs. -/
inductive BsonValue : Type where
  | utf8 (s : CStr)
  | int32 (n : Int)
  | subdoc (elems : List (CStr × CStr))
deriving DecidableEq, Repr

/-- A BSON document: ordered list of key/value elements. -/
abbrev BsonDoc := List (CStr × BsonValue)

/-- Serialized size in bytes of a utf8 element with key `k` and value `v`:
tag byte, key bytes + NUL, 4-byte length prefix, string bytes + NUL. -/
def utf8ElemSize (k v : CStr) : Nat := 1 + k.length + 1 + 4 + v.length + 1

/-- Serialized size in bytes of one BSON value (excluding key and tag). -/
def bsonValueSize : BsonValue → Nat
  | .utf8 s => 4 + s.length + 1
  | .int32 _ => 4
  | .subdoc es => 5 + (es.map (fun e => utf8ElemSize e.1 e.2)).sum

/-- Serialized size in bytes of one element (tag byte, key + NUL, value). -/
def bsonElemSize (e : CStr × BsonValue) : Nat :=
  1 + e.1.length + 1 + bsonValueSize e.2

/-- Serialized size of a whole document: 4-byte length prefix, the
elements, trailing NUL.  An empty document has size 5, matching
`bson_init`'s `doc->len = 5`. -/
def bsonDocSize (d : BsonDoc) : Nat := 5 + (d.map bsonElemSize).sum

/-! ### Metadata document (mongoc-metadata-private.h, mongoc-metadata.c) -/

def METADATA_MAX_SIZE : Nat := 512
def METADATA_OS_NAME_MAX : Nat := 32
def METADATA_OS_VERSION_MAX : Nat := 32
def METADATA_OS_ARCHITECTURE_MAX : Nat := 32
def METADATA_DRIVER_NAME_MAX : Nat := 64
def METADATA_DRIVER_VERSION_MAX : Nat := 32
def METADATA_PLATFORM_FIELD : CStr := cstr "platform"

/-- The global `mongoc_metadata_t` (mongoc-metadata-private.h).  The C
fields are `char *`; a NULL OS field serializes as the empty string via
`_string_or_empty`, so fields are total byte strings here. -/
structure MongocMetadata where
  os_name : CStr
  os_version : CStr
  os_architecture : CStr
  driver_name : CStr
  driver_version : CStr
  platform : CStr
  frozen : Bool
deriving DecidableEq, Repr

/-- Model of `_append_and_free` (mongoc-metadata.c): when `suffix` is
non-NULL, replace `s` by `s ++ " / " ++ suffix`. -/
def appendAndFree (s : CStr) (suffix : Option CStr) : CStr :=
  match suffix with
  | none => s
  | some suf => s ++ cstr " / " ++ suf

/-- Model of `_truncate_if_needed` (mongoc-metadata.c): truncate `s` to its
first `maxLen` bytes when it is longer than `maxLen`. -/
def truncateIfNeeded (s : CStr) (maxLen : Nat) : CStr :=
  if s.length > maxLen then s.take maxLen else s

/-- Model of `mongoc_metadata_append` (mongoc-metadata.c).  Returns the C
function's boolean result together with the new state of the global
metadata document. -/
def mongoc_metadata_append (md : MongocMetadata)
    (driver_name driver_version platform : Option CStr) :
    Bool × MongocMetadata :=
  if md.frozen then (false, md)
  else
    (true,
      { md with
        driver_name :=
          truncateIfNeeded (appendAndFree md.driver_name driver_name)
            METADATA_DRIVER_NAME_MAX
        driver_version :=
          truncateIfNeeded (appendAndFree md.driver_version driver_version)
            METADATA_DRIVER_VERSION_MAX
        platform := appendAndFree md.platform platform
        frozen := true })

/-! ### Document construction (`_mongoc_metadata_build_doc_with_application`) -/

/-- The document contents after the fixed fields: the optional
`application` field, then the `driver` sub-document, then the `os`
sub-document, in the order the source appends them. -/
def fixedFieldsDoc (md : MongocMetadata) (application : Option CStr) : BsonDoc :=
  (match application with
   | some app => [(cstr "application", BsonValue.utf8 app)]
   | none => []) ++
  [(cstr "driver", BsonValue.subdoc
      [(cstr "name", md.driver_name), (cstr "version", md.driver_version)]),
   (cstr "os", BsonValue.subdoc
      [(cstr "name", md.os_name), (cstr "architecture", md.os_architecture),
       (cstr "version", md.os_version)])]

/-- Outcome of `_mongoc_metadata_build_doc_with_application`:
`exceeds` is the `return false` path ("caller shouldn't include it with
isMaster"), `assertViolation` is a failing `BSON_ASSERT` (process abort),
carrying the document state at the abort, and `ok` is the `return true`
path carrying the finished document. -/
inductive BuildResult : Type where
  | exceeds
  | assertViolation (doc : BsonDoc)
  | ok (doc : BsonDoc)
deriving DecidableEq, Repr

def BuildResult.isAssertViolation : BuildResult → Bool
  | .assertViolation _ => true
  | _ => false

def BuildResult.docLen : BuildResult → Nat
  | .exceeds => 0
  | .assertViolation d => bsonDocSize d
  | .ok d => bsonDocSize d

/-- The `max_platform_str_size` computation of the source, a `uint32_t`
subtraction that wraps modulo 2^32: `METADATA_MAX_SIZE - (doc->len + 1 +
strlen("platform") + 1 + 4)`. -/
def maxPlatformStrSize (docLen : Nat) : Nat :=
  ((((METADATA_MAX_SIZE : Int) -
      (docLen + 1 + (METADATA_PLATFORM_FIELD.length + 1) + 4)) % (2 ^ 32)).toNat)

/-- Model of `_mongoc_metadata_build_doc_with_application`
(mongoc-metadata.c lines 279-340).  Steps, in source order: append the
fixed fields; `return false` when the document already exceeds
`METADATA_MAX_SIZE`; compute `max_platform_str_size` (uint32, may wrap);
`BSON_ASSERT (max_platform_str_size > 0)`; truncate the platform string to
`max_platform_str_size - 1` bytes when `max_platform_str_size <
strlen (platform)`, with its `BSON_ASSERT (strlen (platform_copy) <=
max_platform_str_size)`; append the platform field; final
`BSON_ASSERT (doc->len <= METADATA_MAX_SIZE)`; `return true`. -/
def mongoc_metadata_build_doc_with_application
    (md : MongocMetadata) (application : Option CStr) : BuildResult :=
  let doc := fixedFieldsDoc md application
  if bsonDocSize doc > METADATA_MAX_SIZE then .exceeds
  else
    let maxPlat := maxPlatformStrSize (bsonDocSize doc)
    if maxPlat = 0 then .assertViolation doc
    else
      let platformVal :=
        if maxPlat < md.platform.length then md.platform.take (maxPlat - 1)
        else md.platform
      if maxPlat < md.platform.length ∧ platformVal.length > maxPlat then
        .assertViolation doc
      else
        let doc2 := doc ++ [(METADATA_PLATFORM_FIELD, BsonValue.utf8 platformVal)]
        if bsonDocSize doc2 > METADATA_MAX_SIZE then .assertViolation doc2
        else .ok doc2

/-- The "remaining budget for the platform field" named by the claims:
`METADATA_MAX_SIZE` minus the fixed-field document size minus the platform
key/tag/length-prefix overhead, as a (signed) integer. -/
def platformRemaining (md : MongocMetadata) (application : Option CStr) : Int :=
  (METADATA_MAX_SIZE : Int) -
    bsonDocSize (fixedFieldsDoc md application) -
    (1 + (METADATA_PLATFORM_FIELD.length + 1) + 4)

/-! ### Claims C1 and C2: size budget of the built document -/

/-- Outcome alphabet used to compare the source's build function with the
amended claim: budget failure (`return false`), abort on a failing
`BSON_ASSERT`, or success carrying the finished document. -/
inductive BuildOutcome : Type where
  | exceedsBudget
  | assertAbort
  | success (doc : BsonDoc)
deriving DecidableEq, Repr

def BuildResult.toOutcome : BuildResult → BuildOutcome
  | .exceeds => .exceedsBudget
  | .assertViolation _ => .assertAbort
  | .ok d => .success d

/-- The amended claim C2, written from its own words: fail exactly when
the fixed fields already exceed `METADATA_MAX_SIZE`; abort on an
assertion when the remaining platform budget is non-positive (fixed
fields within bounds) or when the platform length equals the remaining
budget exactly; otherwise append the platform, truncated to
`remaining - 1` bytes when longer than the remaining budget and verbatim
otherwise, and return success. -/
def buildDocAmendedClaim (md : MongocMetadata) (application : Option CStr) :
    BuildOutcome :=
  let fl := bsonDocSize (fixedFieldsDoc md application)
  let r := platformRemaining md application
  if METADATA_MAX_SIZE < fl then .exceedsBudget
  else if r ≤ 0 then .assertAbort
  else if md.platform.length = r.toNat then .assertAbort
  else .success
    (fixedFieldsDoc md application ++
      [(METADATA_PLATFORM_FIELD,
        BsonValue.utf8
          (if r.toNat < md.platform.length then md.platform.take (r.toNat - 1)
           else md.platform))])

/-- Metadata state with every stored field empty and a platform string of
exactly 402 bytes: the remaining platform budget at build time is exactly
402, the boundary the source mishandles. -/
def mdBoundaryPlatform : MongocMetadata :=
  ⟨[], [], [], [], [], List.replicate 402 'a', false⟩

/-- Metadata state with every field empty (platform included). -/
def mdEmptyFields : MongocMetadata := ⟨[], [], [], [], [], [], false⟩

/-- An application-name argument of 384 bytes, which brings the
fixed-field document to exactly 498 bytes, so the remaining platform
budget is exactly 0. -/
def app384 : Option CStr := some (List.replicate 384 'a')

/-! ### Topology scanner: data model (mongoc-topology-scanner.c) -/

/-- Error domains used by the scanner paths (mongoc-error.h is not among
the sources; domains are modelled symbolically, `noDomain` standing for
the zeroed value left by `memset`). -/
inductive ErrorDomain : Type where
  | noDomain
  | client
  | stream
deriving DecidableEq, Repr

/-- Error codes used by the scanner paths, modelled symbolically;
`noCode` stands for the zeroed value, whose falsiness means "no error
recorded". -/
inductive ErrorCode : Type where
  | noCode
  | streamConnect
  | streamSocket
  | streamNameResolution
deriving DecidableEq, Repr

/-- A `bson_error_t`: domain, code and a 504-byte message buffer (at most
503 message bytes plus NUL). -/
structure BsonError where
  domain : ErrorDomain
  code : ErrorCode
  message : CStr
deriving DecidableEq, Repr

/-- The all-zero `bson_error_t` produced by `memset`. -/
def clearedError : BsonError := ⟨.noDomain, .noCode, []⟩

/-- Model of `bson_set_error`: formats a message into the 504-byte buffer
(truncating to 503 bytes) and sets domain and code. -/
def bson_set_error (domain : ErrorDomain) (code : ErrorCode) (msg : CStr) :
    BsonError :=
  ⟨domain, code, msg.take 503⟩

/-- One `mongoc_topology_scanner_node_t`.  `hasStream`/`hasCmd` model the
nullable `stream`/`cmd` pointers; `connectOk` and `connectError` are the
oracle for the outcome the transport layer (an external collaborator)
would produce if this node opened a new connection. -/
structure ScannerNode where
  id : Nat
  hostAndPort : CStr
  lastUsed : Int
  lastFailed : Int
  retired : Bool
  hasStream : Bool
  hasCmd : Bool
  hasAuth : Bool
  connectOk : Bool
  connectError : BsonError
  lastError : BsonError
deriving DecidableEq, Repr

/-- The scanner state relevant to the modelled operations. -/
structure TopologyScanner where
  nodes : List ScannerNode
  inProgress : Bool
  error : BsonError
deriving DecidableEq, Repr

/-! ### Handshake command construction (`_send_ismaster_cmd`) -/

/-- Top-level command values: the `isMaster` integer or an embedded
metadata document. -/
inductive CmdValue : Type where
  | int32 (n : Int)
  | doc (d : BsonDoc)
deriving DecidableEq, Repr

/-- A command document sent to a node. -/
abbrev CmdDoc := List (CStr × CmdValue)

def METADATA_FIELD : CStr := cstr "meta"

/-- Model of `_add_ismaster`: append `isMaster: 1`. -/
def addIsMaster (cmd : CmdDoc) : CmdDoc := cmd ++ [(cstr "isMaster", CmdValue.int32 1)]

/-- The scanner's plain `ismaster_cmd` built once in
`mongoc_topology_scanner_new`. -/
def tsIsMasterCmd : CmdDoc := addIsMaster []

/-- Whether a command document has an element with the given key. -/
def cmdHasKey (c : CmdDoc) (k : CStr) : Bool :=
  c.any (fun e => decide (e.1 = k))

/-- Model of `_send_ismaster_cmd` (mongoc-topology-scanner.c lines
189-219).  Input: the scanner's `ismaster_metadata` document, the node,
and the caller's reusable `buffer`.  Output: the command document sent,
the buffer state afterwards, and the node with its async command set. -/
def send_ismaster_cmd (ismasterMetadata : BsonDoc) (node : ScannerNode)
    (buffer : CmdDoc) : CmdDoc × CmdDoc × ScannerNode :=
  if node.lastUsed = -1 ∨ node.lastFailed ≠ -1 then
    let buffer :=
      if buffer.isEmpty then
        addIsMaster [] ++ [(METADATA_FIELD, CmdValue.doc ismasterMetadata)]
      else buffer
    (buffer, buffer, { node with hasCmd := true })
  else (tsIsMasterCmd, buffer, { node with hasCmd := true })

/-! ### Handshake completion handler (`mongoc_topology_scanner_ismaster_handler`) -/

/-- The `mongoc_async_cmd_result_t` values the handler distinguishes. -/
inductive AsyncCmdResult : Type where
  | success
  | error
  | timeout
deriving DecidableEq, Repr

/-- One invocation of the scanner's owner callback: node id, response or
none, round-trip time, the opaque callback context, and the forwarded
error argument. -/
structure CallbackInvocation where
  nodeId : Nat
  response : Option BsonDoc
  rtt : Int
  cbData : Nat
  err : BsonError
deriving DecidableEq, Repr

/-- Result of running the completion handler: the node afterwards,
whether `mongoc_stream_failed` was invoked on its stream, and the owner
callback invocation — `none` when the node was retired and no callback
fires. -/
structure HandlerOutcome where
  node : ScannerNode
  streamMarkedFailed : Bool
  callback : Option CallbackInvocation
deriving DecidableEq, Repr

/-- Model of `mongoc_topology_scanner_ismaster_handler`
(mongoc-topology-scanner.c lines 433-479).  `now` is the
`bson_get_monotonic_time ()` value; `cbData` is the opaque owner-callback
context; `err` is the async layer's error argument, forwarded verbatim.
Note the source's ternary: `async_status == MONGOC_ASYNC_CMD_TIMEOUT ?
"connection error" : "connection timeout"`. -/
def mongoc_topology_scanner_ismaster_handler
    (asyncStatus : AsyncCmdResult) (ismasterResponse : Option BsonDoc)
    (rttMsec : Int) (node : ScannerNode) (err : BsonError) (now : Int)
    (cbData : Nat) : HandlerOutcome :=
  let node := { node with hasCmd := false }
  if node.retired then ⟨node, false, none⟩
  else if ismasterResponse.isNone ∨ asyncStatus = AsyncCmdResult.error ∨
      asyncStatus = AsyncCmdResult.timeout then
    let message :=
      if asyncStatus = AsyncCmdResult.timeout then cstr "connection error"
      else cstr "connection timeout"
    let node :=
      { node with
        hasStream := false
        lastFailed := now
        lastError :=
          bson_set_error ErrorDomain.client ErrorCode.streamConnect
            (message ++ cstr " calling ismaster on \x27" ++
              node.hostAndPort ++ cstr "\x27")
        lastUsed := now }
    ⟨node, true, some ⟨node.id, ismasterResponse, rttMsec, cbData, err⟩⟩
  else
    let node := { node with lastFailed := -1, lastUsed := now }
    ⟨node, false, some ⟨node.id, ismasterResponse, rttMsec, cbData, err⟩⟩

/-! ### Scan-error aggregation (`mongoc_topology_scanner_finish`, `_work`) -/

/-- Whether a node has a recorded error (the source's truthiness test
`node->last_error.code`). -/
def nodeHasError (n : ScannerNode) : Bool :=
  decide (n.lastError.code ≠ ErrorCode.noCode)

/-- One iteration of the aggregation loop in
`mongoc_topology_scanner_finish`: for a node with a recorded error,
append a space when the message string is non-empty, then the bracketed
node message; the node's domain and code overwrite the scan-level ones
("last error domain and code win"). -/
def finishStep (acc : CStr × ErrorDomain × ErrorCode) (n : ScannerNode) :
    CStr × ErrorDomain × ErrorCode :=
  if nodeHasError n then
    ((if acc.1.length > 0 then acc.1 ++ [' '] else acc.1) ++
        cstr "[" ++ n.lastError.message ++ cstr "]",
      n.lastError.domain, n.lastError.code)
  else acc

/-- Model of `mongoc_topology_scanner_finish` (mongoc-topology-scanner.c
lines 755-782).  `BSON_ASSERT (!error->code)` is the `none` case; the
final message is written with `bson_strncpy` into the 504-byte
`error.message` buffer, keeping at most 503 bytes. -/
def mongoc_topology_scanner_finish (ts : TopologyScanner) :
    Option TopologyScanner :=
  if ts.error.code ≠ ErrorCode.noCode then none
  else
    let acc := ts.nodes.foldl finishStep ([], ts.error.domain, ts.error.code)
    some { ts with error := ⟨acc.2.1, acc.2.2, acc.1.take 503⟩ }

/-- Model of `mongoc_topology_scanner_work`: `asyncMore` is the oracle
for `mongoc_async_run`'s return value (the multiplexer is an external
collaborator).  When the multiplexer reports all commands done, clear
`in_progress` and aggregate the per-node errors. -/
def mongoc_topology_scanner_work (ts : TopologyScanner) (asyncMore : Bool) :
    Option (TopologyScanner × Bool) :=
  if asyncMore then some (ts, true)
  else
    match mongoc_topology_scanner_finish { ts with inProgress := false } with
    | none => none
    | some ts2 => some (ts2, false)

/-- A node's message wrapped in square brackets, as the claim words it. -/
def bracketMessage (n : ScannerNode) : CStr :=
  cstr "[" ++ n.lastError.message ++ cstr "]"

/-- Concatenation of a list of strings separated by single spaces, as the
claim words it. -/
def joinSpaced : List CStr → CStr
  | [] => []
  | [p] => p
  | p :: q :: rest => p ++ [' '] ++ joinSpaced (q :: rest)

/-- Claim C5's aggregate message, written from the claim's words: the
concatenation, in node order, of each node's non-empty last error
message wrapped in square brackets, separated by single spaces. -/
def claimAggregatedMessage (nodes : List ScannerNode) : CStr :=
  joinSpaced
    ((nodes.filter (fun n => decide (n.lastError.message ≠ []))).map
      bracketMessage)

/-- The amended aggregate message: same join, but over the nodes with a
recorded error code — the test the source actually performs. -/
def amendedAggregatedMessage (nodes : List ScannerNode) : CStr :=
  joinSpaced ((nodes.filter nodeHasError).map bracketMessage)

/-- The domain and code of the last node in iteration order with a
recorded error, or the given defaults when no node has one. -/
def lastRecordedDomainCode (nodes : List ScannerNode) (d : ErrorDomain)
    (c : ErrorCode) : ErrorDomain × ErrorCode :=
  match (nodes.filter nodeHasError).getLast? with
  | some n => (n.lastError.domain, n.lastError.code)
  | none => (d, c)

/-! ### Scan start and cooldown (`mongoc_topology_scanner_start`) -/

/-- Modelled from the spec: `MONGOC_TOPOLOGY_COOLDOWN_MS` lives in
mongoc-topology-private.h, which is not among the sources; the SDAM
specification quoted in the source comment fixes it: "This value MUST be
5000 ms, and it MUST NOT be configurable." -/
def MONGOC_TOPOLOGY_COOLDOWN_MS : Int := 5000

/-- INT64_MAX, the `cooldown` initializer used when cooldown is not
obeyed. -/
def int64Max : Int := 9223372036854775807

/-- Result of `mongoc_topology_scanner_node_setup`: success (a stream
exists or a non-blocking connect began), reported failure, or the
`BSON_ASSERT (!node->retired)` abort. -/
inductive SetupResult : Type where
  | ok
  | failed
  | assertAbort
deriving DecidableEq, Repr

/-- Model of `mongoc_topology_scanner_node_setup`
(mongoc-topology-scanner.c lines 643-681): no-op success when a stream
already exists; `BSON_ASSERT (!node->retired)`; otherwise consult the
transport oracle — on success store the stream and clear `has_auth`, on
failure record the connect error in `last_error` (the failure is also
reported through the owner callback with a null response and rtt -1). -/
def mongoc_topology_scanner_node_setup (node : ScannerNode) :
    ScannerNode × SetupResult :=
  if node.hasStream then (node, SetupResult.ok)
  else if node.retired then (node, SetupResult.assertAbort)
  else if node.connectOk then
    ({ node with hasStream := true, hasAuth := false }, SetupResult.ok)
  else
    ({ node with lastError := node.connectError }, SetupResult.failed)

/-- What the scan-start loop did with one node. -/
inductive NodeScanOutcome : Type where
  | skippedCooldown
  | setupFailed
  | enqueued
deriving DecidableEq, Repr

/-- The per-node loop of `mongoc_topology_scanner_start`, in list order:
a node whose `last_failed` is not before the cooldown threshold is
skipped; otherwise it is set up and, on success — after
`BSON_ASSERT (!node->cmd)` — its handshake command is enqueued.  `none`
models a failing assertion. -/
def scanNodes (cooldown : Int) :
    List ScannerNode → Option (List ScannerNode × List NodeScanOutcome)
  | [] => some ([], [])
  | node :: rest =>
    if node.lastFailed < cooldown then
      match mongoc_topology_scanner_node_setup node with
      | (n', SetupResult.ok) =>
        if n'.hasCmd then none
        else
          (scanNodes cooldown rest).map
            (fun p => ({ n' with hasCmd := true } :: p.1,
              NodeScanOutcome.enqueued :: p.2))
      | (n', SetupResult.failed) =>
        (scanNodes cooldown rest).map
          (fun p => (n' :: p.1, NodeScanOutcome.setupFailed :: p.2))
      | (_, SetupResult.assertAbort) => none
    else
      (scanNodes cooldown rest).map
        (fun p => (node :: p.1, NodeScanOutcome.skippedCooldown :: p.2))

/-- Model of `mongoc_topology_scanner_start` (mongoc-topology-scanner.c
lines 707-743): no-op when a scan is in progress; clear the scan error;
with `obey_cooldown` the threshold is `now - 1000 *
MONGOC_TOPOLOGY_COOLDOWN_MS` microseconds, otherwise `INT64_MAX`; check
each node whose `last_failed` is strictly before the threshold. -/
def mongoc_topology_scanner_start (ts : TopologyScanner) (now : Int)
    (obeyCooldown : Bool) :
    Option (TopologyScanner × List NodeScanOutcome) :=
  if ts.inProgress then some (ts, [])
  else
    let cooldown :=
      if obeyCooldown then now - 1000 * MONGOC_TOPOLOGY_COOLDOWN_MS
      else int64Max
    match scanNodes cooldown ts.nodes with
    | none => none
    | some (ns, log) =>
      some ({ ts with nodes := ns, error := clearedError }, log)

/-! ### Concrete scanner states used in the evaluations -/

/-- A live, non-retired node with a pending command and no recorded
failure, as it looks when its handshake completes. -/
def nodeC4 : ScannerNode :=
  ⟨7, cstr "localhost:27017", 55, -1, false, true, true, false, true,
    clearedError, clearedError⟩

/-- An arbitrary error value handed to the completion handler by the
async layer. -/
def errC4 : BsonError :=
  ⟨ErrorDomain.stream, ErrorCode.streamSocket, cstr "async layer detail"⟩

/-- A 300-byte error message. -/
def longMsg : CStr := List.replicate 300 'm'

/-- Two nodes with long recorded errors. -/
def nodeErrA : ScannerNode :=
  ⟨1, cstr "a:1", 0, 0, false, false, false, false, false, clearedError,
    ⟨ErrorDomain.client, ErrorCode.streamConnect, longMsg⟩⟩

def nodeErrB : ScannerNode :=
  ⟨2, cstr "b:2", 0, 0, false, false, false, false, false, clearedError,
    ⟨ErrorDomain.stream, ErrorCode.streamSocket, longMsg⟩⟩

/-- A scanner mid-scan over the two failing nodes, its scan error still
cleared from `scanner_start`. -/
def tsC5 : TopologyScanner := ⟨[nodeErrA, nodeErrB], true, clearedError⟩

/-- A node that has never been checked and never failed. -/
def nodeNeverFailedC6 : ScannerNode :=
  ⟨1, cstr "h:1", -1, -1, false, false, false, false, true, clearedError,
    clearedError⟩

def tsC6 : TopologyScanner := ⟨[nodeNeverFailedC6], false, clearedError⟩

/-- A scanner with one never-failed node and one recently failed node. -/
def nodeRecentFailW6 : ScannerNode :=
  ⟨2, cstr "h:2", 50, 999999999, false, false, false, false, true,
    clearedError, clearedError⟩

def tsW6 : TopologyScanner :=
  ⟨[nodeNeverFailedC6, nodeRecentFailW6], false, clearedError⟩

/-- The buffer contents `_send_ismaster_cmd` builds on first use: the
isMaster command with the metadata sub-document attached. -/
def mkIsMasterWithMeta (meta : BsonDoc) : CmdDoc :=
  addIsMaster [] ++ [(METADATA_FIELD, CmdValue.doc meta)]

/-! ### Claim C5: scan-level error aggregation -/

/-- The message-accumulation step of the aggregation loop, taken alone. -/
def msgStep (acc : CStr) (n : ScannerNode) : CStr :=
  if nodeHasError n then
    (if acc.length > 0 then acc ++ [' '] else acc) ++
      cstr "[" ++ n.lastError.message ++ cstr "]"
  else acc

/-- The domain/code step of the aggregation loop, taken alone. -/
def dcStep (dc : ErrorDomain × ErrorCode) (n : ScannerNode) :
    ErrorDomain × ErrorCode :=
  if nodeHasError n then (n.lastError.domain, n.lastError.code) else dc

/-- Joining step over already-bracketed message pieces. -/
def joinStep (acc p : CStr) : CStr :=
  (if acc.length > 0 then acc ++ [' '] else acc) ++ p

/-! ### Client pool (mongoc-client-pool.c) -/

/-- The pool state relevant to checkout/checkin: the idle queue (clients
by numeric id), the `size` counter and the min/max bounds. -/
structure ClientPool where
  queue : List Nat
  size : Nat
  minPoolSize : Nat
  maxPoolSize : Nat
deriving DecidableEq, Repr

/-- Modelled from the spec: the queue operations live in
mongoc-queue-private.h, which is not among the sources.  Per the spec the
idle queue is used as a stack — "most-recently-returned client is reused
first — a LIFO" — so `_mongoc_queue_push_head` prepends to the head. -/
def queuePushHead (q : List Nat) (c : Nat) : List Nat := c :: q

/-- Modelled from the spec: `_mongoc_queue_pop_head` removes and returns
the head element — the most recently pushed — or NULL on an empty
queue. -/
def queuePopHead (q : List Nat) : Option Nat × List Nat :=
  match q with
  | [] => (none, [])
  | c :: rest => (some c, rest)

/-- Model of `mongoc_client_pool_pop` (mongoc-client-pool.c lines
185-220), one completed call: take the queue head if any; otherwise
construct a fresh client (`newClientId`) when under `max_pool_size`,
incrementing `size`; otherwise the thread blocks on the condition
variable — modelled as `none` with the state unchanged (the retry after
a wakeup is a later completed call in the trace). -/
def mongoc_client_pool_pop (p : ClientPool) (newClientId : Nat) :
    Option Nat × ClientPool :=
  match queuePopHead p.queue with
  | (some c, rest) => (some c, { p with queue := rest })
  | (none, _) =>
    if p.size < p.maxPoolSize then
      (some newClientId, { p with size := p.size + 1 })
    else (none, p)

/-- Model of `mongoc_client_pool_try_pop` (mongoc-client-pool.c lines
223-252): as `pop`, but returns NULL instead of waiting when the pool is
at capacity with an empty queue. -/
def mongoc_client_pool_try_pop (p : ClientPool) (newClientId : Nat) :
    Option Nat × ClientPool :=
  match queuePopHead p.queue with
  | (some c, rest) => (some c, { p with queue := rest })
  | (none, _) =>
    if p.size < p.maxPoolSize then
      (some newClientId, { p with size := p.size + 1 })
    else (none, p)

/-- Model of `mongoc_client_pool_push` (mongoc-client-pool.c lines
255-280): when `min_pool_size` is set and `size` exceeds it, pop one
idle client from the queue head and destroy it (returned as the second
component), decrementing `size`; then push the returned client onto the
queue head and signal the condition variable. -/
def mongoc_client_pool_push (p : ClientPool) (client : Nat) :
    ClientPool × Option Nat :=
  let evicted :=
    if p.minPoolSize ≠ 0 ∧ p.minPoolSize < p.size then
      match queuePopHead p.queue with
      | (some old, rest) =>
        ({ p with queue := rest, size := p.size - 1 }, some old)
      | (none, _) => (p, none)
    else (p, none)
  ({ evicted.1 with queue := queuePushHead evicted.1.queue client },
    evicted.2)

/-- The checkout/checkin operations of claim C7. -/
inductive PoolOp : Type where
  | pop
  | tryPop
  | push
deriving DecidableEq, Repr

/-- A pool together with the ghost count of clients currently checked
out by callers; `push` is only enabled when some client is out (the
caller contract: only popped clients are pushed back). -/
structure PoolTrace where
  pool : ClientPool
  checkedOut : Nat
deriving DecidableEq, Repr

/-- The pool state right after `mongoc_client_pool_new`: empty queue,
`size = 0`, bounds from the connection string. -/
def poolInit (minSz maxSz : Nat) : PoolTrace := ⟨⟨[], 0, minSz, maxSz⟩, 0⟩

/-- One completed call against the pool.  Fresh clients are modelled
with id 0 (ids play no role in the sizing claims). -/
def poolStep (t : PoolTrace) : PoolOp → PoolTrace
  | PoolOp.pop =>
    match mongoc_client_pool_pop t.pool 0 with
    | (some _, p') => ⟨p', t.checkedOut + 1⟩
    | (none, p') => ⟨p', t.checkedOut⟩
  | PoolOp.tryPop =>
    match mongoc_client_pool_try_pop t.pool 0 with
    | (some _, p') => ⟨p', t.checkedOut + 1⟩
    | (none, p') => ⟨p', t.checkedOut⟩
  | PoolOp.push =>
    if t.checkedOut = 0 then t
    else ⟨(mongoc_client_pool_push t.pool 0).1, t.checkedOut - 1⟩

/-- Run a sequence of pool calls. -/
def poolRun (ops : List PoolOp) (t : PoolTrace) : PoolTrace :=
  ops.foldl poolStep t

/-- Strengthened pool invariant: the size respects the cap, and the size
counter equals idle clients plus checked-out clients. -/
def PoolInv (maxSz : Nat) (t : PoolTrace) : Prop :=
  t.pool.size ≤ maxSz ∧
  t.pool.queue.length + t.checkedOut = t.pool.size ∧
  t.pool.maxPoolSize = maxSz

/-- A pool above its minimum with two idle clients: client 1 was pushed
after client 2, so 2 is the oldest idle client and 1 the newest. -/
def c8pool : ClientPool := ⟨[1, 2], 3, 1, 10⟩

/-! ### Claim C9: one-shot metadata setters of the pool -/

/-- The pool state relevant to the metadata setters: whether the shared
topology scanner has ever become active (`mongoc_topology_is_scanner_active`
— topology code is not among the sources, so activity is carried as a
state flag), the pool-local `metadata_set` one-shot flag, and the shared
`ismaster_metadata` document. -/
structure MetadataPool where
  scannerActive : Bool
  metadataSet : Bool
  metadata : BsonDoc
deriving DecidableEq, Repr

def MONGOC_METADATA_APPLICATION_NAME_MAX_LENGTH : Nat := 128

/-- Modelled from the spec: `mongoc_client_metadata_set_application` is
not among the sources; the spec gives the application name an
independent fixed maximum (128 in mongoc-client-metadata.h), failing on
longer names and writing the field otherwise. -/
def mongoc_client_metadata_set_application (doc : BsonDoc) (name : CStr) :
    Bool × BsonDoc :=
  if MONGOC_METADATA_APPLICATION_NAME_MAX_LENGTH < name.length then
    (false, doc)
  else (true, doc ++ [(cstr "application", BsonValue.utf8 name)])

/-- Modelled from the spec: `mongoc_client_metadata_set_data` is not
among the sources; it writes the driver/version/platform triple into the
shared metadata document and reports success. -/
def mongoc_client_metadata_set_data (doc : BsonDoc) (dn dv pf : CStr) :
    Bool × BsonDoc :=
  (true,
    doc ++
      [(cstr "driver", BsonValue.subdoc
          [(cstr "name", dn), (cstr "version", dv)]),
        (METADATA_PLATFORM_FIELD, BsonValue.utf8 pf)])

/-- Model of `mongoc_client_pool_set_application`
(mongoc-client-pool.c lines 374-398): under the pool lock, fail without
touching the metadata once the scanner is active; otherwise delegate to
the metadata setter. -/
def mongoc_client_pool_set_application (p : MetadataPool) (name : CStr) :
    Bool × MetadataPool :=
  if p.scannerActive then (false, p)
  else
    let r := mongoc_client_metadata_set_application p.metadata name
    (r.1, { p with metadata := r.2 })

/-- Model of `mongoc_client_pool_set_metadata` (mongoc-client-pool.c
lines 400-434): fail on the pool-local one-shot flag, then on scanner
activity; otherwise delegate, and set the one-shot flag only on
success. -/
def mongoc_client_pool_set_metadata (p : MetadataPool) (dn dv pf : CStr) :
    Bool × MetadataPool :=
  if p.metadataSet then (false, p)
  else if p.scannerActive then (false, p)
  else
    let r := mongoc_client_metadata_set_data p.metadata dn dv pf
    (r.1, { p with metadata := r.2, metadataSet := r.1 })

/-- A fresh pool: scanner inactive, metadata not yet set. -/
def freshPool : MetadataPool := ⟨false, false, []⟩

/-- A pool whose scanner has become active. -/
def activePool : MetadataPool := ⟨true, false, []⟩

lemma metadata_platform_key_length : METADATA_PLATFORM_FIELD.length = 8 := rfl

lemma bsonDocSize_append_utf8 (d : BsonDoc) (k v : CStr) :
    bsonDocSize (d ++ [(k, BsonValue.utf8 v)]) =
      bsonDocSize d + (7 + k.length + v.length) := by
  simp [bsonDocSize, bsonElemSize, bsonValueSize]
  ring


lemma maxPlatformStrSize_of_le (n : Nat) (h : n ≤ 497) :
    maxPlatformStrSize n = 498 - n := by
  unfold maxPlatformStrSize METADATA_MAX_SIZE
  rw [metadata_platform_key_length]
  rw [Int.emod_eq_of_lt (by push_cast; omega) (by push_cast; omega)]
  push_cast
  omega

lemma toNat_emod_ne_zero_of_neg (d m : Int) (h1 : -m < d) (h2 : d < 0) :
    (d % m).toNat ≠ 0 := by
  have hm : 0 < m := by omega
  have hrw : d % m = d + m := by
    have h := Int.add_mul_emod_self_left (a := d) (b := m) (c := 1)
    rw [mul_one] at h
    rw [← h, Int.emod_eq_of_lt (by omega) (by omega)]
  rw [hrw]
  omega

lemma maxPlatformStrSize_ne_zero_of_wrap (n : Nat) (h1 : 499 ≤ n)
    (h2 : n ≤ 512) : maxPlatformStrSize n ≠ 0 := by
  unfold maxPlatformStrSize METADATA_MAX_SIZE
  rw [metadata_platform_key_length]
  apply toNat_emod_ne_zero_of_neg
  · have h32 : (2 : Int) ^ 32 = 4294967296 := by norm_num
    rw [h32]
    push_cast
    omega
  · push_cast
    omega

lemma emod_eq_add_of_neg (d m : Int) (h1 : -m < d) (h2 : d < 0) :
    d % m = d + m := by
  have hm : 0 < m := by omega
  have h := Int.add_mul_emod_self_left (a := d) (b := m) (c := 1)
  rw [mul_one] at h
  rw [← h, Int.emod_eq_of_lt (by omega) (by omega)]

lemma maxPlatformStrSize_wrap_bound (n : Nat) (h1 : 499 ≤ n) (h2 : n ≤ 512) :
    15 ≤ maxPlatformStrSize n := by
  unfold maxPlatformStrSize METADATA_MAX_SIZE
  rw [metadata_platform_key_length]
  have h32 : (2 : Int) ^ 32 = 4294967296 := by norm_num
  rw [h32]
  rw [emod_eq_add_of_neg _ _ (by push_cast; omega) (by push_cast; omega)]
  push_cast
  omega

/-- Case analysis of the uint32 `max_platform_str_size` value over the
range of fixed-field sizes that reach its computation. -/
lemma maxPlat_trichotomy (n : Nat) (h : n ≤ 512) :
    (n ≤ 497 ∧ maxPlatformStrSize n = 498 - n) ∨
    (n = 498 ∧ maxPlatformStrSize n = 0) ∨
    (499 ≤ n ∧ 15 ≤ maxPlatformStrSize n) := by
  rcases Nat.lt_or_ge n 498 with h1 | h1
  · exact Or.inl ⟨by omega, maxPlatformStrSize_of_le n (by omega)⟩
  · rcases Nat.eq_or_lt_of_le h1 with h2 | h2
    · refine Or.inr (Or.inl ⟨h2.symm, ?_⟩)
      rw [← h2]
      decide
    · exact Or.inr (Or.inr ⟨by omega, maxPlatformStrSize_wrap_bound n (by omega) h⟩)

set_option maxRecDepth 8000 in
/-- Claim C2 (amended): the source build function realizes exactly the
amended case analysis `buildDocAmendedClaim`: it returns the budget
failure precisely when the fixed fields already exceed
`METADATA_MAX_SIZE`; it aborts on one of its own assertions when the
remaining platform budget is non-positive while the fixed fields are
within the limit, or when the platform length equals the remaining budget
exactly; in the remaining cases it returns success with the platform
appended, truncated to `remaining - 1` bytes when the platform is longer
than the remaining budget and verbatim otherwise. -/
theorem build_doc_with_application_characterization
    (md : MongocMetadata) (application : Option CStr) :
    (mongoc_metadata_build_doc_with_application md application).toOutcome =
      buildDocAmendedClaim md application := by
  have hr : platformRemaining md application =
      512 - (bsonDocSize (fixedFieldsDoc md application) : Int) - 14 := by
    unfold platformRemaining METADATA_MAX_SIZE
    rw [metadata_platform_key_length]
    push_cast
    ring
  simp only [mongoc_metadata_build_doc_with_application, buildDocAmendedClaim,
    bsonDocSize_append_utf8, metadata_platform_key_length]
  split_ifs
  all_goals simp only [List.length_take, METADATA_MAX_SIZE] at *
  all_goals
    first
    | rfl
    | (exfalso
       have htri := maxPlat_trichotomy
         (bsonDocSize (fixedFieldsDoc md application)) (by omega)
       rcases htri with ⟨hc, hm⟩ | ⟨hc, hm⟩ | ⟨hc, hm⟩ <;> omega)
    | (have htri := maxPlat_trichotomy
         (bsonDocSize (fixedFieldsDoc md application)) (by omega)
       have hmr : maxPlatformStrSize (bsonDocSize (fixedFieldsDoc md application)) =
           (platformRemaining md application).toNat := by
         rcases htri with ⟨hc, hm⟩ | ⟨hc, hm⟩ | ⟨hc, hm⟩ <;> omega
       rw [hmr]
       rfl)

set_option maxRecDepth 100000 in
/-- Claim C1 (code bug witness): at a platform string whose length equals
the remaining budget exactly (all fixed fields empty, no application,
platform of 402 bytes), the build function appends the platform verbatim,
constructs a 513-byte document — strictly more than
`METADATA_MAX_SIZE = 512` — and fails its own trailing
`BSON_ASSERT (doc->len <= METADATA_MAX_SIZE)`: the size postcondition is
not established by construction. -/
theorem build_doc_trips_own_size_assertion :
    (mongoc_metadata_build_doc_with_application mdBoundaryPlatform
        none).isAssertViolation = true ∧
    (mongoc_metadata_build_doc_with_application mdBoundaryPlatform
        none).docLen = 513 ∧
    513 > METADATA_MAX_SIZE := by
  refine ⟨by decide, by decide, by decide⟩

set_option maxRecDepth 100000 in
/-- Claim C2 (counterexample): an input whose remaining platform budget
is non-positive (exactly 0) on which the build function does not return
the ExceedsBudget failure — it trips `BSON_ASSERT (max_platform_str_size
> 0)` instead, because the source's failure test is `doc->len >
METADATA_MAX_SIZE`, not `remaining <= 0`. -/
theorem build_doc_nonpositive_remaining_not_exceeds :
    platformRemaining mdEmptyFields app384 ≤ 0 ∧
    mongoc_metadata_build_doc_with_application mdEmptyFields app384 ≠
      BuildResult.exceeds := by
  refine ⟨by decide, by decide⟩

/-- Claim C3: `mongoc_metadata_append` on a frozen document returns false
and leaves every field byte-for-byte unchanged; on a non-frozen document
each non-null argument is concatenated to its field with the separator
" / ", after which driver_name is truncated to its 64-byte cap and
driver_version to its 32-byte cap while platform is never truncated, the
document is frozen and the call returns true; and any call on the
resulting state (in particular a second call after a successful first
one) returns false without mutation. -/
theorem mongoc_metadata_append_characterization
    (md : MongocMetadata) (dn dv pf dn2 dv2 pf2 : Option CStr) :
    (mongoc_metadata_append md dn dv pf =
      if md.frozen then (false, md)
      else
        (true,
          { md with
            driver_name :=
              (let cat :=
                match dn with
                | none => md.driver_name
                | some s => md.driver_name ++ cstr " / " ++ s
               if METADATA_DRIVER_NAME_MAX < cat.length then
                 cat.take METADATA_DRIVER_NAME_MAX
               else cat)
            driver_version :=
              (let cat :=
                match dv with
                | none => md.driver_version
                | some s => md.driver_version ++ cstr " / " ++ s
               if METADATA_DRIVER_VERSION_MAX < cat.length then
                 cat.take METADATA_DRIVER_VERSION_MAX
               else cat)
            platform :=
              match pf with
              | none => md.platform
              | some s => md.platform ++ cstr " / " ++ s
            frozen := true })) ∧
    mongoc_metadata_append (mongoc_metadata_append md dn dv pf).2
        dn2 dv2 pf2 =
      (false, (mongoc_metadata_append md dn dv pf).2) := by
  constructor
  · cases hf : md.frozen <;> cases dn <;> cases dv <;> cases pf <;>
      simp [mongoc_metadata_append, appendAndFree, truncateIfNeeded, hf]
  · cases hf : md.frozen <;>
      simp [mongoc_metadata_append, hf]

/-! ### Claim C4: completion-handler behaviour -/

set_option maxRecDepth 4000 in
/-- Claim C4 (code-bug evaluation): on a timeout completing against the
non-retired node `localhost:27017`, the handler clears the command,
marks the stream failed and clears it, sets `last_failed` and
`last_used` to now, records a per-node error with domain client and
code stream-connect — but its message reads "connection error", not
"connection timeout" — and forwards `(id, null response, rtt, context,
error)` to the owner callback; dually, a connection error is labelled
"connection timeout": the source's ternary arms are swapped. -/
theorem ismaster_handler_labels_timeout_as_connection_error :
    mongoc_topology_scanner_ismaster_handler AsyncCmdResult.timeout none
        (-1) nodeC4 errC4 1234 9 =
      ⟨{ nodeC4 with
          hasCmd := false
          hasStream := false
          lastFailed := 1234
          lastUsed := 1234
          lastError := ⟨ErrorDomain.client, ErrorCode.streamConnect,
            cstr "connection error calling ismaster on \x27localhost:27017\x27"⟩ },
        true, some ⟨7, none, -1, 9, errC4⟩⟩ ∧
    (mongoc_topology_scanner_ismaster_handler AsyncCmdResult.error none
        (-1) nodeC4 errC4 1234 9).node.lastError.message =
      cstr "connection timeout calling ismaster on \x27localhost:27017\x27" := by
  refine ⟨by decide, by decide⟩

lemma foldl_finishStep_split (ns : List ScannerNode) :
    ∀ (a : CStr) (d : ErrorDomain) (c : ErrorCode),
      ns.foldl finishStep (a, d, c) =
        (ns.foldl msgStep a, ns.foldl dcStep (d, c)) := by
  induction ns with
  | nil => intro a d c; simp
  | cons n rest ih =>
    intro a d c
    by_cases h : nodeHasError n <;>
      simp [finishStep, msgStep, dcStep, h, ih]

lemma foldl_msgStep_eq_pieces (ns : List ScannerNode) :
    ∀ a : CStr, ns.foldl msgStep a =
      ((ns.filter nodeHasError).map bracketMessage).foldl joinStep a := by
  induction ns with
  | nil => intro a; simp
  | cons n rest ih =>
    intro a
    by_cases h : nodeHasError n
    · simp only [List.foldl, List.filter_cons_of_pos h, List.map_cons]
      rw [ih]
      congr 1
      simp [msgStep, joinStep, bracketMessage, h, List.append_assoc]
    · simp only [List.foldl, List.filter_cons_of_neg (by simpa using h)]
      rw [← ih]
      congr 1
      simp [msgStep, h]

lemma bracketMessage_ne_nil (n : ScannerNode) : bracketMessage n ≠ [] := by
  simp [bracketMessage, cstr]

lemma joinStep_ne_nil (a p : CStr) (ha : a ≠ []) : joinStep a p ≠ [] := by
  unfold joinStep
  rw [if_pos (by cases a <;> simp_all)]
  simp

lemma foldl_joinStep_ne (ps : List CStr) :
    ∀ a : CStr, a ≠ [] → ps.foldl joinStep a = joinSpaced (a :: ps) := by
  induction ps with
  | nil => intro a ha; simp [joinSpaced]
  | cons p rest ih =>
    intro a ha
    simp only [List.foldl]
    rw [ih (joinStep a p) (joinStep_ne_nil a p ha)]
    have hstep : joinStep a p = a ++ [' '] ++ p := by
      unfold joinStep
      rw [if_pos (by cases a <;> simp_all)]
    rw [hstep]
    cases rest with
    | nil => simp [joinSpaced]
    | cons q qs => simp [joinSpaced, List.append_assoc]

lemma foldl_joinStep_nil (ps : List CStr) (hps : ∀ p ∈ ps, p ≠ []) :
    ps.foldl joinStep [] = joinSpaced ps := by
  cases ps with
  | nil => rfl
  | cons p rest =>
    simp only [List.foldl]
    have hp : joinStep [] p = p := by simp [joinStep]
    rw [hp]
    cases rest with
    | nil => simp [joinSpaced]
    | cons q qs =>
      exact foldl_joinStep_ne (q :: qs) p (hps p (by simp))

lemma foldl_dcStep_eq_last (ns : List ScannerNode) :
    ∀ dc : ErrorDomain × ErrorCode,
      ns.foldl dcStep dc = lastRecordedDomainCode ns dc.1 dc.2 := by
  induction ns with
  | nil => intro dc; simp [lastRecordedDomainCode]
  | cons n rest ih =>
    intro dc
    by_cases h : nodeHasError n
    · simp only [List.foldl]
      have hst : dcStep dc n = (n.lastError.domain, n.lastError.code) := by
        simp [dcStep, h]
      rw [hst, ih]
      unfold lastRecordedDomainCode
      rw [List.filter_cons_of_pos h]
      cases hl : rest.filter nodeHasError with
      | nil => simp [hl]
      | cons x xs =>
        rw [List.getLast?_cons_cons]
        have hs : ((x :: xs).getLast?).isSome := by
          rw [List.getLast?_isSome]
          simp
        obtain ⟨y, hy⟩ := Option.isSome_iff_exists.mp hs
        simp [hy]
    · simp only [List.foldl]
      have hst : dcStep dc n = dc := by simp [dcStep, h]
      rw [hst, ih]
      unfold lastRecordedDomainCode
      rw [List.filter_cons_of_neg (by simpa using h)]

set_option maxRecDepth 100000 in
/-- Claim C5 (counterexample): with two nodes carrying 300-byte error
messages, the scan-level message after `scanner_work` finishes the pass
is not the full bracketed concatenation (605 bytes) — it is that
concatenation cut to the 503 bytes that fit the fixed-size
`bson_error_t` message buffer. -/
theorem scanner_aggregated_message_is_truncated :
    (mongoc_topology_scanner_work tsC5 false).map
        (fun p => p.1.error.message) ≠
      some (claimAggregatedMessage tsC5.nodes) ∧
    (mongoc_topology_scanner_work tsC5 false).map
        (fun p => p.1.error.message) =
      some ((claimAggregatedMessage tsC5.nodes).take 503) := by
  refine ⟨by decide, by decide⟩

/-- Claim C5 (amended): when `scanner_work` finds all commands complete,
it clears `in_progress` and sets the scan-level error to: the
concatenation, in node insertion order, of the bracketed message of
every node with a recorded error, single-space separated and truncated
to the 503 bytes of the error buffer; domain and code are those of the
last node in iteration order with a recorded error. -/
theorem scanner_work_error_aggregation (ts : TopologyScanner)
    (h : ts.error.code = ErrorCode.noCode) :
    mongoc_topology_scanner_work ts false =
      some ({ ts with
        inProgress := false
        error :=
          ⟨(lastRecordedDomainCode ts.nodes ts.error.domain ts.error.code).1,
            (lastRecordedDomainCode ts.nodes ts.error.domain ts.error.code).2,
            (amendedAggregatedMessage ts.nodes).take 503⟩ }, false) := by
  unfold mongoc_topology_scanner_work mongoc_topology_scanner_finish
  rw [if_neg (by simp)]
  rw [if_neg (by simp [h])]
  rw [foldl_finishStep_split, foldl_msgStep_eq_pieces, foldl_joinStep_nil,
    foldl_dcStep_eq_last]
  · rfl
  · intro p hp
    obtain ⟨n, _, rfl⟩ := List.mem_map.mp hp
    exact bracketMessage_ne_nil n

set_option maxRecDepth 100000 in
/-- Claim C5 (witness): the aggregation theorem applied to the concrete
two-node scanner, with the aggregate evaluated: domain and code come
from the second (last) failing node, and the message is the 503-byte
truncation of the 605-byte bracketed concatenation. -/
theorem scanner_work_error_aggregation_witness :
    mongoc_topology_scanner_work tsC5 false =
      some ({ tsC5 with
        inProgress := false
        error := ⟨ErrorDomain.stream, ErrorCode.streamSocket,
          (claimAggregatedMessage tsC5.nodes).take 503⟩ }, false) := by
  rw [scanner_work_error_aggregation tsC5 rfl]
  decide

/-! ### Claim C6: cooldown gating in scanner_start -/

/-- Claim C6 (counterexample): `obey_cooldown = true`, monotonic clock at
0 microseconds, a single node that has never failed (`last_failed = -1`):
the threshold is `0 - 5000000`, the test `-1 < -5000000` fails, and the
never-failed node is skipped — not "always checked". -/
theorem scanner_start_skips_never_failed_node_at_small_now :
    (mongoc_topology_scanner_start tsC6 0 true).map (fun p => p.2) =
      some [NodeScanOutcome.skippedCooldown] := by
  decide

lemma forall₂_imp_of_mem {α β : Type} {R S : α → β → Prop} :
    ∀ {l1 : List α} {l2 : List β}, List.Forall₂ R l1 l2 →
      (∀ a ∈ l1, ∀ b, R a b → S a b) → List.Forall₂ S l1 l2 := by
  intro l1 l2 h
  induction h with
  | nil => intro _; exact List.Forall₂.nil
  | cons hr _ ih =>
    intro hm
    exact List.Forall₂.cons (hm _ (by simp) _ hr)
      (ih fun a ha b hb => hm a (by simp [ha]) b hb)

/-- The scan-start loop checks exactly the nodes whose `last_failed` is
strictly before the cooldown threshold, and enqueues a handshake for
exactly the checked nodes whose stream exists or whose connect attempt
succeeds. -/
lemma scanNodes_characterization (cooldown : Int) :
    ∀ ns : List ScannerNode,
      (∀ n ∈ ns, n.retired = false ∧ n.hasCmd = false) →
      ∃ ns' log, scanNodes cooldown ns = some (ns', log) ∧
        List.Forall₂ (fun n o =>
          (o ≠ NodeScanOutcome.skippedCooldown ↔ n.lastFailed < cooldown) ∧
          (o = NodeScanOutcome.enqueued ↔
            (n.lastFailed < cooldown ∧
              (n.hasStream = true ∨ n.connectOk = true)))) ns log := by
  intro ns
  induction ns with
  | nil => exact fun _ => ⟨[], [], rfl, List.Forall₂.nil⟩
  | cons node rest ih =>
    intro h
    obtain ⟨hr, hc⟩ := h node (by simp)
    obtain ⟨ns', log, hs, hf⟩ := ih (fun n hn => h n (by simp [hn]))
    by_cases hcd : node.lastFailed < cooldown
    · by_cases hstream : node.hasStream
      · refine ⟨{ node with hasCmd := true } :: ns',
          NodeScanOutcome.enqueued :: log, ?_, ?_⟩
        · simp [scanNodes, hcd, mongoc_topology_scanner_node_setup, hstream,
            hc, hs]
        · exact List.Forall₂.cons
            ⟨by simp [hcd], by simp [hcd, hstream]⟩ hf
      · by_cases hconn : node.connectOk
        · refine ⟨{ node with hasStream := true, hasAuth := false, hasCmd := true } :: ns', NodeScanOutcome.enqueued :: log, ?_, ?_⟩
          · simp [scanNodes, hcd, mongoc_topology_scanner_node_setup,
              hstream, hr, hconn, hc, hs]
          · exact List.Forall₂.cons
              ⟨by simp [hcd], by simp [hcd, hconn]⟩ hf
        · refine ⟨{ node with lastError := node.connectError } :: ns',
            NodeScanOutcome.setupFailed :: log, ?_, ?_⟩
          · simp [scanNodes, hcd, mongoc_topology_scanner_node_setup,
              hstream, hr, hconn, hs]
          · refine List.Forall₂.cons ⟨by simp [hcd], ?_⟩ hf
            constructor
            · intro hx
              cases hx
            · rintro ⟨-, hx | hx⟩
              · exact absurd hx hstream
              · exact absurd hx hconn
    · refine ⟨node :: ns', NodeScanOutcome.skippedCooldown :: log, ?_, ?_⟩
      · simp [scanNodes, hcd, hs]
      · refine List.Forall₂.cons ⟨by simp [hcd], ?_⟩ hf
        constructor
        · intro hx
          cases hx
        · rintro ⟨hx, -⟩
          exact absurd hcd (by simpa using hx)

/-- Claim C6 (amended): with `obey_cooldown = true`, scanner_start sets
up and (when setup succeeds) enqueues a handshake exactly for the nodes
whose `last_failed` is strictly earlier than `now` minus the cooldown
(so a never-failed node, `last_failed = -1`, is checked whenever
`now - COOLDOWN` exceeds `-1`, in particular once COOLDOWN of monotonic
time has elapsed); with `obey_cooldown = false` it does so for every
node. -/
theorem scanner_start_cooldown_characterization (ts : TopologyScanner)
    (now : Int) (obeyCooldown : Bool)
    (hip : ts.inProgress = false)
    (hn : ∀ n ∈ ts.nodes, n.retired = false ∧ n.hasCmd = false ∧
      n.lastFailed < int64Max) :
    ∃ ns log,
      mongoc_topology_scanner_start ts now obeyCooldown =
        some ({ ts with nodes := ns, error := clearedError }, log) ∧
      List.Forall₂ (fun n o =>
        (obeyCooldown = true →
          (o ≠ NodeScanOutcome.skippedCooldown ↔
            n.lastFailed < now - 1000 * MONGOC_TOPOLOGY_COOLDOWN_MS)) ∧
        (obeyCooldown = false → o ≠ NodeScanOutcome.skippedCooldown) ∧
        (o = NodeScanOutcome.enqueued ↔
          (o ≠ NodeScanOutcome.skippedCooldown ∧
            (n.hasStream = true ∨ n.connectOk = true)))) ts.nodes log := by
  obtain ⟨ns', log, hs, hf⟩ := scanNodes_characterization
    (if obeyCooldown then now - 1000 * MONGOC_TOPOLOGY_COOLDOWN_MS
     else int64Max)
    ts.nodes (fun n hn' => ⟨(hn n hn').1, (hn n hn').2.1⟩)
  refine ⟨ns', log, ?_, ?_⟩
  · unfold mongoc_topology_scanner_start
    rw [if_neg (by simp [hip])]
    simp only [hs]
  · refine forall₂_imp_of_mem hf (fun n hn' o ho => ?_)
    obtain ⟨h1, h2⟩ := ho
    refine ⟨?_, ?_, ?_⟩
    · intro hob
      rw [hob] at h1
      simpa using h1
    · intro hob
      rw [hob] at h1
      simp at h1
      exact h1.mpr (hn n hn').2.2
    · rw [← h1] at h2
      exact h2

/-- Claim C6 (witness): the cooldown characterization applied to a
concrete scanner holding one never-failed node and one node that failed
within the cooldown window, at monotonic time 10^9 with
`obey_cooldown = true`. -/
theorem scanner_start_cooldown_characterization_witness :
    ∃ ns log,
      mongoc_topology_scanner_start tsW6 1000000000 true =
        some ({ tsW6 with nodes := ns, error := clearedError }, log) ∧
      List.Forall₂ (fun n o =>
        (true = true →
          (o ≠ NodeScanOutcome.skippedCooldown ↔
            n.lastFailed < 1000000000 - 1000 * MONGOC_TOPOLOGY_COOLDOWN_MS)) ∧
        (true = false → o ≠ NodeScanOutcome.skippedCooldown) ∧
        (o = NodeScanOutcome.enqueued ↔
          (o ≠ NodeScanOutcome.skippedCooldown ∧
            (n.hasStream = true ∨ n.connectOk = true)))) tsW6.nodes log :=
  scanner_start_cooldown_characterization tsW6 1000000000 true rfl
    (by decide)

/-! ### Claim C10: metadata is attached to the handshake iff never used
or recently failed -/

/-- Claim C10: the command `_send_ismaster_cmd` dispatches contains the
client-metadata sub-document (key `METADATA_FIELD`) precisely when the
node has never been used (`last_used = -1`) or has a recorded failure
(`last_failed ≠ -1`); otherwise the scanner's bare `isMaster` command is
sent; in every case the command carries the `isMaster` field.  The
buffer is either still empty or already filled by an earlier call of the
same pass. -/
theorem send_ismaster_metadata_iff (meta : BsonDoc) (node : ScannerNode)
    (buffer : CmdDoc)
    (hbuf : buffer = [] ∨ buffer = mkIsMasterWithMeta meta) :
    (cmdHasKey (send_ismaster_cmd meta node buffer).1 METADATA_FIELD = true ↔
      (node.lastUsed = -1 ∨ node.lastFailed ≠ -1)) ∧
    ((node.lastUsed ≠ -1 ∧ node.lastFailed = -1) →
      (send_ismaster_cmd meta node buffer).1 = tsIsMasterCmd) ∧
    cmdHasKey (send_ismaster_cmd meta node buffer).1 (cstr "isMaster") =
      true := by
  have hk1 : (decide (cstr "isMaster" = METADATA_FIELD)) = false := by decide
  have hk2 : (decide (cstr "isMaster" = cstr "isMaster")) = true := by decide
  have hk3 : (decide (METADATA_FIELD = METADATA_FIELD)) = true := by decide
  unfold send_ismaster_cmd
  by_cases hc : node.lastUsed = -1 ∨ node.lastFailed ≠ -1
  · rw [if_pos hc]
    rcases hbuf with hb | hb <;> subst hb <;>
      simp [mkIsMasterWithMeta, addIsMaster, cmdHasKey, tsIsMasterCmd,
        METADATA_FIELD, hc, hk1, hk2, hk3] <;>
      tauto
  · rw [if_neg hc]
    push_neg at hc
    refine ⟨?_, fun _ => rfl, ?_⟩
    · simp [cmdHasKey, tsIsMasterCmd, addIsMaster, hk1]
      tauto
    · simp [cmdHasKey, tsIsMasterCmd, addIsMaster, hk2]

/-- Claim C10 (witness): a node that has never been used, with an empty
buffer: the sent command carries the metadata sub-document. -/
theorem send_ismaster_metadata_iff_witness :
    (cmdHasKey (send_ismaster_cmd [] nodeNeverFailedC6 []).1
        METADATA_FIELD = true ↔
      (nodeNeverFailedC6.lastUsed = -1 ∨
        nodeNeverFailedC6.lastFailed ≠ -1)) ∧
    ((nodeNeverFailedC6.lastUsed ≠ -1 ∧ nodeNeverFailedC6.lastFailed = -1) →
      (send_ismaster_cmd [] nodeNeverFailedC6 []).1 = tsIsMasterCmd) ∧
    cmdHasKey (send_ismaster_cmd [] nodeNeverFailedC6 []).1
        (cstr "isMaster") = true :=
  send_ismaster_metadata_iff [] nodeNeverFailedC6 [] (Or.inl rfl)

lemma try_pop_eq_pop :
    mongoc_client_pool_try_pop = mongoc_client_pool_pop := rfl

lemma poolStep_preserves (maxSz : Nat) (t : PoolTrace) (op : PoolOp)
    (h : PoolInv maxSz t) : PoolInv maxSz (poolStep t op) := by
  obtain ⟨h1, h2, h3⟩ := h
  cases op with
  | pop =>
    cases hq : t.pool.queue with
    | nil =>
      rw [hq] at h2
      simp only [List.length_nil, Nat.zero_add] at h2
      by_cases hsz : t.pool.size < t.pool.maxPoolSize
      · simp only [poolStep, mongoc_client_pool_pop, queuePopHead, hq,
          if_pos hsz]
        exact ⟨by simp; omega, by simp; omega, h3⟩
      · simp only [poolStep, mongoc_client_pool_pop, queuePopHead, hq,
          if_neg hsz]
        exact ⟨h1, by simp [hq]; omega, h3⟩
    | cons c rest =>
      rw [hq] at h2
      simp only [List.length_cons] at h2
      simp only [poolStep, mongoc_client_pool_pop, queuePopHead, hq]
      exact ⟨h1, by simp; omega, h3⟩
  | tryPop =>
    cases hq : t.pool.queue with
    | nil =>
      rw [hq] at h2
      simp only [List.length_nil, Nat.zero_add] at h2
      by_cases hsz : t.pool.size < t.pool.maxPoolSize
      · simp only [poolStep, try_pop_eq_pop, mongoc_client_pool_pop,
          queuePopHead, hq, if_pos hsz]
        exact ⟨by simp; omega, by simp; omega, h3⟩
      · simp only [poolStep, try_pop_eq_pop, mongoc_client_pool_pop,
          queuePopHead, hq, if_neg hsz]
        exact ⟨h1, by simp [hq]; omega, h3⟩
    | cons c rest =>
      rw [hq] at h2
      simp only [List.length_cons] at h2
      simp only [poolStep, try_pop_eq_pop, mongoc_client_pool_pop,
        queuePopHead, hq]
      exact ⟨h1, by simp; omega, h3⟩
  | push =>
    by_cases hout : t.checkedOut = 0
    · simp only [poolStep, if_pos hout]
      exact ⟨h1, h2, h3⟩
    · simp only [poolStep, if_neg hout]
      by_cases hmin : t.pool.minPoolSize ≠ 0 ∧
          t.pool.minPoolSize < t.pool.size
      · cases hq : t.pool.queue with
        | nil =>
          rw [hq] at h2
          simp only [List.length_nil, Nat.zero_add] at h2
          simp only [mongoc_client_pool_push, queuePushHead, queuePopHead,
            hq, if_pos hmin]
          exact ⟨h1, by simp; omega, h3⟩
        | cons c rest =>
          rw [hq] at h2
          simp only [List.length_cons] at h2
          simp only [mongoc_client_pool_push, queuePushHead, queuePopHead,
            hq, if_pos hmin]
          exact ⟨by simp; omega, by simp; omega, h3⟩
      · simp only [mongoc_client_pool_push, queuePushHead, queuePopHead,
          if_neg hmin]
        exact ⟨h1, by simp; omega, h3⟩

lemma poolRun_preserves (maxSz : Nat) (ops : List PoolOp) :
    ∀ t : PoolTrace, PoolInv maxSz t → PoolInv maxSz (poolRun ops t) := by
  induction ops with
  | nil => exact fun t h => h
  | cons op rest ih =>
    intro t h
    exact ih (poolStep t op) (poolStep_preserves maxSz t op h)

/-- Claim C7: over every sequence of completed `pop`, `try_pop` and
`push` calls starting from a fresh pool, the pool's `size` never exceeds
`max_pool_size` and the idle-queue length never exceeds `size`. -/
theorem pool_size_bounds_invariant (ops : List PoolOp) (minSz maxSz : Nat) :
    (poolRun ops (poolInit minSz maxSz)).pool.size ≤ maxSz ∧
    (poolRun ops (poolInit minSz maxSz)).pool.queue.length ≤
      (poolRun ops (poolInit minSz maxSz)).pool.size := by
  have h := poolRun_preserves maxSz ops (poolInit minSz maxSz)
    ⟨by simp [poolInit], by simp [poolInit], rfl⟩
  obtain ⟨h1, h2, -⟩ := h
  exact ⟨h1, by omega⟩

/-- Claim C8 (counterexample): pushing client 9 into `c8pool` (min set,
size above min) evicts client 1 — the most recently pushed idle client,
the queue head — not client 2, the single oldest idle client. -/
theorem pool_push_evicts_newest_not_oldest :
    (mongoc_client_pool_push c8pool 9).2 = some 1 ∧
    c8pool.queue.getLast? = some 2 ∧
    (mongoc_client_pool_push c8pool 9).2 ≠ c8pool.queue.getLast? := by
  refine ⟨by decide, by decide, by decide⟩

/-- Claim C8 (amended): when `min_pool_size` is set (non-zero) and the
current size strictly exceeds it, `push` first evicts and destroys
exactly one client — the most recently pushed idle client, the queue
head — decrementing `size` (no eviction when the queue is empty), and
then pushes the returned client onto the queue head; when
`min_pool_size` is unset or `size ≤ min_pool_size`, no client is
evicted. -/
theorem pool_push_characterization (p : ClientPool) (c : Nat) :
    (p.minPoolSize ≠ 0 ∧ p.minPoolSize < p.size →
      (∀ old rest, p.queue = old :: rest →
        mongoc_client_pool_push p c =
          ({ p with queue := c :: rest, size := p.size - 1 }, some old)) ∧
      (p.queue = [] →
        mongoc_client_pool_push p c = ({ p with queue := [c] }, none))) ∧
    (¬(p.minPoolSize ≠ 0 ∧ p.minPoolSize < p.size) →
      mongoc_client_pool_push p c =
        ({ p with queue := c :: p.queue }, none)) := by
  refine ⟨fun hmin => ⟨?_, ?_⟩, fun hmin => ?_⟩
  · intro old rest hq
    simp [mongoc_client_pool_push, queuePopHead, queuePushHead, hq, hmin]
  · intro hq
    simp [mongoc_client_pool_push, queuePopHead, queuePushHead, hq, hmin]
  · simp [mongoc_client_pool_push, queuePopHead, queuePushHead, hmin]

/-- Claim C8 (witness): the characterization applied to the concrete
pool: min is set, size 3 exceeds min 1, the queue head (client 1, the
newest) is evicted, size drops to 2, and client 9 lands at the head. -/
theorem pool_push_characterization_witness :
    (c8pool.minPoolSize ≠ 0 ∧ c8pool.minPoolSize < c8pool.size) ∧
    mongoc_client_pool_push c8pool 9 =
      ({ c8pool with queue := [9, 2], size := 2 }, some 1) :=
  ⟨by decide,
    ((pool_push_characterization c8pool 9).1 (by decide)).1 1 [2] rfl⟩

/-- Claim C9: once the scanner is active, both setters always return
false and leave the shared metadata document untouched; and
`set_metadata` returns false, without mutation, on every call after its
first successful call, even if the scanner never became active. -/
theorem pool_metadata_setters_one_shot (p : MetadataPool)
    (name dn dv pf dn2 dv2 pf2 : CStr) :
    (p.scannerActive = true →
      mongoc_client_pool_set_application p name = (false, p) ∧
      mongoc_client_pool_set_metadata p dn dv pf = (false, p)) ∧
    (p.metadataSet = true →
      mongoc_client_pool_set_metadata p dn dv pf = (false, p)) ∧
    ((mongoc_client_pool_set_metadata p dn dv pf).1 = true →
      mongoc_client_pool_set_metadata
          (mongoc_client_pool_set_metadata p dn dv pf).2 dn2 dv2 pf2 =
        (false, (mongoc_client_pool_set_metadata p dn dv pf).2)) := by
  refine ⟨fun ha => ?_, fun hm => ?_, fun hs => ?_⟩
  · cases hm : p.metadataSet <;>
      simp [mongoc_client_pool_set_application,
        mongoc_client_pool_set_metadata, ha, hm]
  · simp [mongoc_client_pool_set_metadata, hm]
  · by_cases hm : p.metadataSet
    · simp [mongoc_client_pool_set_metadata, hm] at hs
    · by_cases ha : p.scannerActive
      · simp [mongoc_client_pool_set_metadata, hm, ha] at hs
      · simp [mongoc_client_pool_set_metadata, hm, ha,
          mongoc_client_metadata_set_data] at hs ⊢

/-- Claim C9 (witness): on the active pool both setters fail without
mutation; on the fresh pool the first `set_metadata` succeeds and the
second call fails without mutation. -/
theorem pool_metadata_setters_one_shot_witness :
    (mongoc_client_pool_set_application activePool (cstr "app") =
        (false, activePool) ∧
      mongoc_client_pool_set_metadata activePool (cstr "d") (cstr "v")
          (cstr "p") = (false, activePool)) ∧
    ((mongoc_client_pool_set_metadata freshPool (cstr "d") (cstr "v")
        (cstr "p")).1 = true) ∧
    mongoc_client_pool_set_metadata
        (mongoc_client_pool_set_metadata freshPool (cstr "d") (cstr "v")
          (cstr "p")).2 (cstr "d2") (cstr "v2") (cstr "p2") =
      (false, (mongoc_client_pool_set_metadata freshPool (cstr "d")
        (cstr "v") (cstr "p")).2) :=
  ⟨(pool_metadata_setters_one_shot activePool (cstr "app") (cstr "d")
      (cstr "v") (cstr "p") (cstr "d2") (cstr "v2") (cstr "p2")).1 rfl,
    by decide,
    (pool_metadata_setters_one_shot freshPool (cstr "app") (cstr "d")
      (cstr "v") (cstr "p") (cstr "d2") (cstr "v2") (cstr "p2")).2.2
      (by decide)⟩
